import Mathlib

/-!
Shallow embedding of the BillWise extraction engine
(`src/backend/parsing.py`, function `extract_structured_data` and its
helpers `clean_amount` / `clean_date`, plus the module-level pattern
tables `PATTERNS` and `VENDOR_CATEGORIES`).

Text is modelled as `List Char`.  The Python regular expressions of the
module are each embedded as a hand-written matcher that reproduces the
leftmost-match / greedy-with-backtracking semantics of `re.search` for
that concrete pattern.  The character classes (`\s`, `\d`, `\w`, `A-Z`)
are modelled over ASCII, which covers every character class decision the
patterns make on the inputs of interest; `str.strip`, `str.lower` and
`re.IGNORECASE` are modelled accordingly.  Python `float` values produced
by `clean_amount` are modelled exactly as rationals.  Exceptions that the
Python code can raise (`IndexError` from `match.group(1)` on a pattern
without a capture group, `ValueError` from `float(...)`) are modelled with
`Except`.
-/

deriving instance DecidableEq for Except

namespace BillWise

/-- The Python exceptions that `extract_structured_data` can propagate. -/
inductive PyErr where
  | indexError   : PyErr
  | valueError   : PyErr
  deriving DecidableEq, Repr

/-- ASCII whitespace as matched by Python's `\s` and stripped by
`str.strip()`: space, tab, newline, carriage return, vertical tab,
form feed. -/
def isPySpace (c : Char) : Bool :=
  c == ' ' || c == '\t' || c == '\n' || c == '\r' || c == '\x0b' || c == '\x0c'

/-- Python `str.strip()`: remove leading and trailing whitespace. -/
def strip (s : List Char) : List Char :=
  ((s.dropWhile isPySpace).reverse.dropWhile isPySpace).reverse

/-- Case-insensitive literal prefix test (`re.IGNORECASE` on an ASCII
literal): the pattern `pat` is given lowercased. -/
def startsWithCI (pat : List Char) (s : List Char) : Bool :=
  (s.take pat.length).map Char.toLower == pat

/-!  ## Segmentation

`chunks = re.split(r'\n-[-]{2,}\n|\n=[=]{2,}\n', text)`

`re.split` scans left to right for non-overlapping matches of the
pattern.  A match is a newline, then a maximal run of three or more `-`
(or `=`) characters, then a newline; the trailing newline is consumed by
the match.  `sepAfterNL s` is given the text just after a `\n` and
returns the number of characters the rest of the separator match consumes
(dash run plus the closing newline), or `none`. -/

def sepAfterNL (s : List Char) : Option Nat :=
  let d := (s.takeWhile (fun c => c == '-')).length
  if 3 ≤ d ∧ (s.drop d).head? = some '\n' then some (d + 1)
  else
    let e := (s.takeWhile (fun c => c == '=')).length
    if 3 ≤ e ∧ (s.drop e).head? = some '\n' then some (e + 1)
    else none

/-- The leftmost occurrence of a split-pattern match (newline, maximal
run of 3+ dashes or 3+ equals, newline): returns the text before the
match and the text after it (the match itself — including its trailing
newline — is consumed). -/
def findSep (s : List Char) : Option (List Char × List Char) :=
  match s with
  | [] => none
  | c :: r =>
    if c = '\n' then
      match sepAfterNL r with
      | some n => some ([], r.drop n)
      | none => (findSep r).map (fun pq => (c :: pq.1, pq.2))
    else (findSep r).map (fun pq => (c :: pq.1, pq.2))

/-- `re.split` as repeated leftmost matching.  The `fuel` argument only
drives the recursion; every separator match consumes at least one
character, so `text.length` units suffice (`splitChunksFuel_irrel`
below). -/
def splitChunksFuel : Nat → List Char → List (List Char)
  | 0, text => [text]
  | fuel + 1, text =>
    match findSep text with
    | none => [text]
    | some pq => pq.1 :: splitChunksFuel fuel pq.2

/-- `re.split(r'\n-[-]{2,}\n|\n=[=]{2,}\n', text)`. -/
def splitChunks (text : List Char) : List (List Char) :=
  splitChunksFuel text.length text

/-- The non-blank chunks, i.e. the segments the engine actually
processes (`if not chunk.strip(): continue`). -/
def segments (text : List Char) : List (List Char) :=
  (splitChunks text).filter (fun c => !(strip c).isEmpty)

/-! ## Generic scanning

`re.search` tries every start position from left to right and returns the
first position where the whole pattern matches.  `scanP f s` runs the
positional matcher `f` on every suffix of `s` (including the empty
suffix) and returns the first success. -/

def scanP {α : Type} (f : List Char → Option α) : List Char → Option α
  | [] => f []
  | c :: r =>
    match f (c :: r) with
    | some v => some v
    | none => scanP f r

/-! ## Vendor: the all-caps pre-pass

`re.compile(r"^([A-Z\s]+|...)$")` — precisely
`re.compile(r"^([A-Z\s&]+)$", re.MULTILINE)`, searched over the chunk.
With `re.MULTILINE`, `^` matches at the start of the text and after every
newline, and `$` matches at the end of the text and before a newline.
The class `[A-Z\s&]` contains the newline itself, so the greedy run can
span lines; backtracking then settles on the largest end position that
sits at the end of the text or right before a newline. -/

def capsClass (c : Char) : Bool :=
  ('A' ≤ c && c ≤ 'Z') || isPySpace c || c == '&'

/-- Backtracking for the `$` anchor: try end positions `e, e-1, ..., 1`
(all inside the greedy run) and keep the first whose following character
is a newline or the end of the text. -/
def capsTry (s : List Char) : Nat → Option (List Char)
  | 0 => none
  | e + 1 =>
    if (s.drop (e + 1)).isEmpty || (s.drop (e + 1)).head? = some '\n' then
      some (s.take (e + 1))
    else capsTry s e

/-- Try the all-caps pattern at one line start. -/
def capsMatchAt (s : List Char) : Option (List Char) :=
  capsTry s (s.takeWhile capsClass).length

/-- Scan the remaining line starts (each position right after a
newline). -/
def capsSearchAux : List Char → Option (List Char)
  | [] => none
  | c :: r =>
    if c = '\n' then
      match capsMatchAt r with
      | some g => some g
      | none => capsSearchAux r
    else capsSearchAux r

/-- `all_caps_pattern.search(chunk)`: position 0 is a line start, then
every position following a newline. -/
def capsSearch (s : List Char) : Option (List Char) :=
  match capsMatchAt s with
  | some g => some g
  | none => capsSearchAux s

/-! ## Vendor: ranked fallback patterns

Pattern 1: `(?:from|billed by|sold by|store):\s*([^\n]+)` with `re.I`.
Pattern 2: `^(?:[A-Z\s]+)\n` with `re.I` — note: NO capture group, so a
match makes `match.group(1)` raise `IndexError`.
Pattern 3: `^\s*([^\n]+)\n` with `re.I`.
Pattern 4: `Store[^\n]*:\s*([^\n]+)` with `re.I`.

The tail `\s*([^\n]+)` is greedy with backtracking: the whitespace run
first takes its maximum, and shrinks only as far as needed for `[^\n]+`
to grab at least one character. -/

/-- `[^\n]+` starting `k` characters into `s` (those `k` characters were
consumed by `\s*`). -/
def vsTryAt (s : List Char) (k : Nat) : Option (List Char) :=
  let L := (s.drop k).takeWhile (fun c => c != '\n')
  if L.isEmpty then none else some L

/-- Backtracking over the `\s*` length, longest first. -/
def vsTry (s : List Char) : Nat → Option (List Char)
  | 0 => vsTryAt s 0
  | k + 1 =>
    match vsTryAt s (k + 1) with
    | some g => some g
    | none => vsTry s k

/-- `\s*([^\n]+)` with nothing after the group (patterns 1 and 4). -/
def vsTail (s : List Char) : Option (List Char) :=
  vsTry s (s.takeWhile isPySpace).length

/-- Vendor pattern 1 at one position.  The four label alternatives are
mutually exclusive at any position, so no cross-alternative backtracking
arises. -/
def p1At (s : List Char) : Option (List Char) :=
  if startsWithCI ("from:".toList) s then vsTail (s.drop 5)
  else if startsWithCI ("billed by:".toList) s then vsTail (s.drop 10)
  else if startsWithCI ("sold by:".toList) s then vsTail (s.drop 8)
  else if startsWithCI ("store:".toList) s then vsTail (s.drop 6)
  else none

/-- Vendor pattern 2, anchored at the start of the chunk (no
`re.MULTILINE`).  `[A-Z\s]` under `re.I` is letters and whitespace —
including the newline, so the match condition is: the greedy class run
contains a newline at an index `≥ 1`. -/
def p2Matches (s : List Char) : Bool :=
  ((s.takeWhile (fun c => c.isAlpha || isPySpace c)).drop 1).contains '\n'

/-- Vendor pattern 3, anchored at the start: `^\s*([^\n]+)\n`.  Here the
group must be followed by a literal newline. -/
def p3TryAt (s : List Char) (k : Nat) : Option (List Char) :=
  let r := s.drop k
  let L := r.takeWhile (fun c => c != '\n')
  if L.isEmpty then none
  else if (r.drop L.length).isEmpty then none
  else some L

def p3Go (s : List Char) : Nat → Option (List Char)
  | 0 => p3TryAt s 0
  | k + 1 =>
    match p3TryAt s (k + 1) with
    | some g => some g
    | none => p3Go s k

def p3Match (s : List Char) : Option (List Char) :=
  p3Go s (s.takeWhile isPySpace).length

/-- Vendor pattern 4 at one position: after the literal `store` (CI),
`[^\n]*` is greedy and backtracks over the candidate `:` positions,
rightmost first. -/
def p4ColonAt (rest : List Char) (j : Nat) : Option (List Char) :=
  if (rest.drop j).head? = some ':' then vsTail (rest.drop (j + 1)) else none

def p4Colon (rest : List Char) : Nat → Option (List Char)
  | 0 => p4ColonAt rest 0
  | j + 1 =>
    match p4ColonAt rest (j + 1) with
    | some g => some g
    | none => p4Colon rest j

def p4At (s : List Char) : Option (List Char) :=
  if startsWithCI ("store".toList) s then
    let rest := s.drop 5
    p4Colon rest (rest.takeWhile (fun c => c != '\n')).length
  else none

/-- The vendor phase of the per-chunk loop: the all-caps pre-pass first
(on success the ranked list is skipped); otherwise the ranked patterns in
order.  A match of pattern 2 reaches `match.group(1)` on a pattern with
no group and raises `IndexError`. -/
def vendorField (chunk : List Char) : Except PyErr (Option (List Char)) :=
  match capsSearch chunk with
  | some g => .ok (some (strip g))
  | none =>
    match scanP p1At chunk with
    | some g => .ok (some (strip g))
    | none =>
      if p2Matches chunk then .error .indexError
      else
        match p3Match chunk with
        | some g => .ok (some (strip g))
        | none =>
          match scanP p4At chunk with
          | some g => .ok (some (strip g))
          | none => .ok none

/-! ## Dates

`clean_date` tries `datetime.strptime` with the formats `%d/%m/%Y`,
`%d-%m-%Y`, `%d-%b-%Y`, `%d.%m.%Y` in order and returns `None` when all
fail.  The `_strptime` token regexes are `3[01]|[12]\d|0[1-9]|[1-9]` for
`%d`, `1[0-2]|0[1-9]|[1-9]` for `%m`, `\d\d\d\d` for `%Y`, and the
case-insensitive three-letter month abbreviations for `%b`; the whole
string must be consumed, and `datetime(...)` then validates the day
against the month length (rejecting e.g. Feb 30), raising `ValueError`
(caught by `clean_date`) otherwise. -/

structure PyDate where
  year  : Nat
  month : Nat
  day   : Nat
  deriving DecidableEq, Repr

def digitVal (c : Char) : Nat := c.toNat - '0'.toNat

/-- `%d` token: regex `3[01]|[12]\d|0[1-9]|[1-9]`, alternatives tried in
order. -/
def dayTok : List Char → Option (Nat × List Char)
  | c1 :: c2 :: rest =>
    if c1 = '3' ∧ (c2 = '0' ∨ c2 = '1') then some (30 + digitVal c2, rest)
    else if (c1 = '1' ∨ c1 = '2') ∧ c2.isDigit then
      some (10 * digitVal c1 + digitVal c2, rest)
    else if c1 = '0' ∧ ('1' ≤ c2 ∧ c2 ≤ '9') then some (digitVal c2, rest)
    else if '1' ≤ c1 ∧ c1 ≤ '9' then some (digitVal c1, c2 :: rest)
    else none
  | [c1] => if '1' ≤ c1 ∧ c1 ≤ '9' then some (digitVal c1, []) else none
  | [] => none

/-- `%m` token: regex `1[0-2]|0[1-9]|[1-9]`. -/
def monthTok : List Char → Option (Nat × List Char)
  | c1 :: c2 :: rest =>
    if c1 = '1' ∧ (c2 = '0' ∨ c2 = '1' ∨ c2 = '2') then some (10 + digitVal c2, rest)
    else if c1 = '0' ∧ ('1' ≤ c2 ∧ c2 ≤ '9') then some (digitVal c2, rest)
    else if '1' ≤ c1 ∧ c1 ≤ '9' then some (digitVal c1, c2 :: rest)
    else none
  | [c1] => if '1' ≤ c1 ∧ c1 ≤ '9' then some (digitVal c1, []) else none
  | [] => none

/-- `%b` token: a case-insensitive three-letter month abbreviation. -/
def monthAbbrTok : List Char → Option (Nat × List Char)
  | c1 :: c2 :: c3 :: rest =>
    let w := [c1.toLower, c2.toLower, c3.toLower]
    if w = "jan".toList then some (1, rest)
    else if w = "feb".toList then some (2, rest)
    else if w = "mar".toList then some (3, rest)
    else if w = "apr".toList then some (4, rest)
    else if w = "may".toList then some (5, rest)
    else if w = "jun".toList then some (6, rest)
    else if w = "jul".toList then some (7, rest)
    else if w = "aug".toList then some (8, rest)
    else if w = "sep".toList then some (9, rest)
    else if w = "oct".toList then some (10, rest)
    else if w = "nov".toList then some (11, rest)
    else if w = "dec".toList then some (12, rest)
    else none
  | _ => none

/-- `%Y` token: exactly four digits. -/
def yearTok : List Char → Option (Nat × List Char)
  | c1 :: c2 :: c3 :: c4 :: rest =>
    if c1.isDigit ∧ c2.isDigit ∧ c3.isDigit ∧ c4.isDigit then
      some (1000 * digitVal c1 + 100 * digitVal c2 + 10 * digitVal c3 + digitVal c4, rest)
    else none
  | _ => none

def litChar (c : Char) : List Char → Option (List Char)
  | x :: r => if x = c then some r else none
  | [] => none

def isLeap (y : Nat) : Bool :=
  y % 4 == 0 && (y % 100 != 0 || y % 400 == 0)

def daysInMonth (y m : Nat) : Nat :=
  if m = 2 then (if isLeap y then 29 else 28)
  else if m = 4 ∨ m = 6 ∨ m = 9 ∨ m = 11 then 30
  else 31

/-- `datetime(year, month, day)` validation (month is already 1..12 from
the token): `MINYEAR = 1`, day within the month. -/
def mkDate (y m d : Nat) : Option PyDate :=
  if 1 ≤ y ∧ 1 ≤ d ∧ d ≤ daysInMonth y m then some ⟨y, m, d⟩ else none

/-- One `strptime` attempt with format day `sep` month `sep` year, where
`month` is the `%m` or `%b` token. -/
def strptimeDMY (sep : Char) (month : List Char → Option (Nat × List Char))
    (s : List Char) : Option PyDate := do
  let (d, r1) ← dayTok s
  let r2 ← litChar sep r1
  let (m, r3) ← month r2
  let r4 ← litChar sep r3
  let (y, r5) ← yearTok r4
  if r5.isEmpty then mkDate y m d else none

/-- `clean_date`: strip, then try the four formats in order; `None` when
all raise `ValueError`. -/
def clean_date (s : List Char) : Option PyDate :=
  let t := strip s
  match strptimeDMY '/' monthTok t with
  | some d => some d
  | none =>
    match strptimeDMY '-' monthTok t with
    | some d => some d
    | none =>
      match strptimeDMY '-' monthAbbrTok t with
      | some d => some d
      | none => strptimeDMY '.' monthTok t

/-! ## Date patterns

`Date:` then `\s*` then two digits, slash-or-dash, two digits, slash-or-dash, four digits (re.I),
`(\d{2}-\w{3}-\d{4})` (re.I),
`Billed on:\s*(\d{2}\.\d{2}\.\d{4})` (re.I). -/

def take2d : List Char → Option (List Char × List Char)
  | a :: b :: r => if a.isDigit ∧ b.isDigit then some ([a, b], r) else none
  | _ => none

def take4d : List Char → Option (List Char × List Char)
  | a :: b :: c :: d :: r =>
    if a.isDigit ∧ b.isDigit ∧ c.isDigit ∧ d.isDigit then some ([a, b, c, d], r) else none
  | _ => none

/-- The slash-or-dash separator class. -/
def takeSlashDash : List Char → Option (Char × List Char)
  | x :: r => if x = '/' ∨ x = '-' then some (x, r) else none
  | _ => none

/-- `\w` over ASCII: letters, digits, underscore. -/
def isWordChar (c : Char) : Bool := c.isAlphanum || c == '_'

def take3w : List Char → Option (List Char × List Char)
  | a :: b :: c :: r =>
    if isWordChar a ∧ isWordChar b ∧ isWordChar c then some ([a, b, c], r) else none
  | _ => none

/-- The captured date text: two digits, slash-or-dash, two digits, slash-or-dash, four digits. -/
def dmyCapture (s : List Char) : Option (List Char) := do
  let (d1, r1) ← take2d s
  let (s1, r2) ← takeSlashDash r1
  let (d2, r3) ← take2d r2
  let (s2, r4) ← takeSlashDash r3
  let (d3, _) ← take4d r4
  some (d1 ++ s1 :: d2 ++ s2 :: d3)

/-- `Date:\s*(...)` at one position.  Shrinking `\s*` cannot help here
(a shorter run leaves a whitespace character where a digit is needed), so
only the maximal whitespace run is relevant. -/
def d1At (s : List Char) : Option (List Char) :=
  if startsWithCI ("date:".toList) s then
    dmyCapture ((s.drop 5).dropWhile isPySpace)
  else none

/-- `(\d{2}-\w{3}-\d{4})` at one position. -/
def d2At (s : List Char) : Option (List Char) := do
  let (d1, r1) ← take2d s
  let r2 ← litChar '-' r1
  let (w3, r3) ← take3w r2
  let r4 ← litChar '-' r3
  let (d3, _) ← take4d r4
  some (d1 ++ '-' :: w3 ++ '-' :: d3)

/-- The capture `(\d{2}\.\d{2}\.\d{4})`. -/
def dotCapture (s : List Char) : Option (List Char) := do
  let (d1, r1) ← take2d s
  let r2 ← litChar '.' r1
  let (d2, r3) ← take2d r2
  let r4 ← litChar '.' r3
  let (d3, _) ← take4d r4
  some (d1 ++ '.' :: d2 ++ '.' :: d3)

/-- `Billed on:\s*(...)` at one position. -/
def d3At (s : List Char) : Option (List Char) :=
  if startsWithCI ("billed on:".toList) s then
    dotCapture ((s.drop 10).dropWhile isPySpace)
  else none

/-- The date phase of the per-chunk loop: first pattern whose search
succeeds wins; its capture is stripped and fed to `clean_date`.  The
outer `Option` is whether the key `date` gets set at all; the inner one
is `clean_date`'s result (possibly `None`). -/
def dateField (chunk : List Char) : Option (Option PyDate) :=
  match scanP d1At chunk with
  | some v => some (clean_date (strip v))
  | none =>
    match scanP d2At chunk with
    | some v => some (clean_date (strip v))
    | none =>
      match scanP d3At chunk with
      | some v => some (clean_date (strip v))
      | none => none

/-! ## Amounts

Patterns (re.I): `Total Amount:\s+₹?([\d,]+\.\d{2})`,
`Total:\s*₹?([\d,]+\.\d{2})`, `Grand Total:\s*₹?([\d,]+\.\d{2})`,
`Amount Paid:\s*₹?([\d,]+\.\d{2})`.

`clean_amount` does
`float(amount_str.replace(",", "").replace("₹", "").strip())`; a failing
`float` raises `ValueError` which nothing in the module catches. -/

def isDigitOrComma (c : Char) : Bool := c.isDigit || c == ','

/-- `₹?([\d,]+\.\d{2})` at the position right after the label's
whitespace.  `[\d,]+` is greedy; shrinking it leaves a class character
where the `.` is required, so only the maximal run is relevant, and
likewise dropping a present `₹` cannot rescue a failed tail. -/
def amountCaptureAt (s : List Char) : Option (List Char) :=
  let s1 := if s.head? = some '₹' then s.drop 1 else s
  let run := s1.takeWhile isDigitOrComma
  if run.isEmpty then none
  else
    match s1.drop run.length with
    | c :: a :: b :: _ =>
      if c = '.' ∧ a.isDigit ∧ b.isDigit then some (run ++ [c, a, b]) else none
    | _ => none

/-- One amount pattern at one position: label (CI), then `\s+` when
`needWs` (pattern `Total Amount:` uses `\s+`, the others `\s*`), then the
numeric capture. -/
def amountAt (label : List Char) (needWs : Bool) (s : List Char) : Option (List Char) :=
  if startsWithCI label s then
    let r := s.drop label.length
    let w := r.takeWhile isPySpace
    if needWs ∧ w.isEmpty then none
    else amountCaptureAt (r.drop w.length)
  else none

/-- The amount phase: the four patterns searched in order. -/
def amountSearch (chunk : List Char) : Option (List Char) :=
  match scanP (amountAt ("total amount:".toList) true) chunk with
  | some v => some v
  | none =>
    match scanP (amountAt ("total:".toList) false) chunk with
    | some v => some v
    | none =>
      match scanP (amountAt ("grand total:".toList) false) chunk with
      | some v => some v
      | none => scanP (amountAt ("amount paid:".toList) false) chunk

/-! ### Python `float` on the relevant grammar

`float(s)` on strings made of signs, digits, a decimal point and an
exponent (the only shapes `clean_amount` can ever feed it; `inf`/`nan`
and PEP-515 underscores cannot occur here and are not modelled). -/

def natVal (l : List Char) : Nat :=
  l.foldl (fun a c => 10 * a + digitVal c) 0

/-- The exact rational value of a parsed float: sign, integer digits,
fractional digits, decimal exponent.  All arithmetic is done on integers
and the rational is built once (by `mkRat`), matching the exact decimal
the text denotes. -/
def ratOfParts (sgn : Int) (ip fp : List Char) (e : Int) : ℚ :=
  let m : Int := sgn * ((natVal ip : Int) * ((10 ^ fp.length : Nat) : Int) + (natVal fp : Int))
  let s : Int := e - (fp.length : Int)
  if 0 ≤ s then mkRat (m * ((10 ^ s.toNat : Nat) : Int)) 1
  else mkRat m (10 ^ (-s).toNat)

/-- Optional exponent part, then end of string. -/
def pyExp (sgn : Int) (ip fp : List Char) : List Char → Option ℚ
  | [] => some (ratOfParts sgn ip fp 0)
  | c :: t =>
    if c = 'e' ∨ c = 'E' then
      let p := match t with
        | s :: r =>
          if s = '+' then ((1 : Int), r)
          else if s = '-' then ((-1 : Int), r) else ((1 : Int), s :: r)
        | [] => ((1 : Int), ([] : List Char))
      let ds := p.2.takeWhile Char.isDigit
      if ds.isEmpty || !(p.2.dropWhile Char.isDigit).isEmpty then none
      else some (ratOfParts sgn ip fp (p.1 * (natVal ds : Int)))
    else none

/-- Unsigned mantissa: `digits [. digits]` with at least one digit on
one side of the point, then the optional exponent. -/
def pyFloatBody (sgn : Int) (s : List Char) : Option ℚ :=
  let ip := s.takeWhile Char.isDigit
  let r := s.dropWhile Char.isDigit
  if r.head? = some '.' then
    let t := r.drop 1
    let fp := t.takeWhile Char.isDigit
    let r2 := t.dropWhile Char.isDigit
    if ip.isEmpty ∧ fp.isEmpty then none
    else pyExp sgn ip fp r2
  else if ip.isEmpty then none
  else pyExp sgn ip [] r

def pyFloat (s : List Char) : Option ℚ :=
  match s with
  | c :: t =>
    if c = '+' then pyFloatBody 1 t
    else if c = '-' then pyFloatBody (-1) t
    else pyFloatBody 1 (c :: t)
  | [] => none

/-- `clean_amount`: remove commas and the rupee sign, strip, parse as a
decimal; `none` models the `ValueError` of `float`. -/
def clean_amount (s : List Char) : Option ℚ :=
  pyFloat (strip ((s.filter (fun c => c != ',')).filter (fun c => c != '₹')))

/-- The amount phase of the per-chunk loop, with the possible
`ValueError` of the unguarded `clean_amount` call. -/
def amountFieldE (chunk : List Char) : Except PyErr (Option ℚ) :=
  match amountSearch chunk with
  | none => .ok none
  | some v =>
    match clean_amount (strip v) with
    | some q => .ok (some q)
    | none => .error .valueError

/-! ## Category

`VENDOR_CATEGORIES`, iterated in insertion order; the first keyword that
is a substring of the lower-cased vendor wins, else the record defaults
to `Uncategorized`. -/

def toLowerList (s : List Char) : List Char := s.map Char.toLower

/-- Python `pat in s` (substring containment). -/
def containsSub (pat : List Char) : List Char → Bool
  | [] => pat.isEmpty
  | c :: r => pat.isPrefixOf (c :: r) || containsSub pat r

def VENDOR_CATEGORIES : List (List Char × List Char) :=
  [("zomato".toList, "Food".toList),
   ("swiggy".toList, "Food".toList),
   ("bescom".toList, "Utilities".toList),
   ("reliance fresh".toList, "Groceries".toList),
   ("more".toList, "Groceries".toList),
   ("jio".toList, "Internet".toList),
   ("act fibernet".toList, "Internet".toList)]

def categoryOf (vendor : List Char) : List Char :=
  match VENDOR_CATEGORIES.find? (fun kv => containsSub kv.1 (toLowerList vendor)) with
  | some kv => kv.2
  | none => "Uncategorized".toList

/-! ## Currency

`(?:\$|€|£|¥|₹|Rs\.?)\s*([\d,]+(?:\.[\d]{2})?)`, searched (no flags);
the matched text `group(0)` is then tested with the ordered substring
checks of the code, defaulting to `INR`. -/

structure CurMatch where
  sym : List Char
  ws  : List Char
  num : List Char
  deriving DecidableEq, Repr

/-- After a symbol: `\s*` (maximal; shrinking leaves whitespace where a
digit is needed), then `[\d,]+` (maximal), then the optional `.\d{2}`,
taken greedily when it matches. -/
def curTail (symText : List Char) (r : List Char) : Option CurMatch :=
  let w := r.takeWhile isPySpace
  let r2 := r.drop w.length
  let run := r2.takeWhile isDigitOrComma
  if run.isEmpty then none
  else
    match r2.drop run.length with
    | c :: a :: b :: _ =>
      if c = '.' ∧ a.isDigit ∧ b.isDigit then some ⟨symText, w, run ++ [c, a, b]⟩
      else some ⟨symText, w, run⟩
    | _ => some ⟨symText, w, run⟩

/-- The symbol alternation at one position.  `Rs\.?` is greedy on the
dot; if the tail fails with the dot consumed, backtracking retries
without it (which then necessarily fails on the dot itself). -/
def currencyAt (s : List Char) : Option CurMatch :=
  match s with
  | [] => none
  | c :: r =>
    if c = '$' ∨ c = '€' ∨ c = '£' ∨ c = '¥' ∨ c = '₹' then curTail [c] r
    else
      if c = 'R' then
        match r with
        | c2 :: r2 =>
          if c2 = 's' then
            match r2 with
            | c3 :: r3 =>
              if c3 = '.' then
                match curTail ['R', 's', '.'] r3 with
                | some m => some m
                | none => curTail ['R', 's'] (c3 :: r3)
              else curTail ['R', 's'] (c3 :: r3)
            | [] => curTail ['R', 's'] []
          else none
        | [] => none
      else none

/-- The currency detection block of `extract_structured_data`. -/
def currency_of (chunk : List Char) : List Char :=
  match scanP currencyAt chunk with
  | none => "INR".toList
  | some m =>
    let g0 := m.sym ++ m.ws ++ m.num
    if g0.contains '$' then "USD".toList
    else if g0.contains '€' then "EUR".toList
    else if g0.contains '£' then "GBP".toList
    else if g0.contains '¥' then "JPY".toList
    else if g0.contains '₹' || containsSub ("Rs".toList) g0 then "INR".toList
    else "INR".toList

/-! ## Record building -/

structure Receipt where
  vendor : List Char
  transaction_date : Option PyDate
  total_amount : ℚ
  category : List Char
  currency : List Char
  raw_text : List Char
  deriving DecidableEq, Repr

/-- The body of the per-chunk loop: run the three field phases (vendor
first — its `IndexError` fires before the amount's `ValueError` could),
validate by KEY PRESENCE only (`all(k in extracted ...)`), and build the
record. -/
def processChunk (chunk : List Char) : Except PyErr (Option Receipt) :=
  match vendorField chunk with
  | .error e => .error e
  | .ok vOpt =>
    match amountFieldE chunk with
    | .error e => .error e
    | .ok aOpt =>
      match vOpt, dateField chunk, aOpt with
      | some v, some d, some a =>
        .ok (some ⟨v, d, a, categoryOf v, currency_of chunk, chunk⟩)
      | _, _, _ => .ok none

/-- The chunk loop: blank chunks are skipped; an exception raised while
processing any chunk propagates and discards all previously accumulated
records. -/
def goChunks : List (List Char) → Except PyErr (List Receipt)
  | [] => .ok []
  | c :: cs =>
    if (strip c).isEmpty then goChunks cs
    else
      match processChunk c with
      | .error e => .error e
      | .ok none => goChunks cs
      | .ok (some r) =>
        match goChunks cs with
        | .error e => .error e
        | .ok l => .ok (r :: l)

/-- `extract_structured_data(text)`. -/
def extract_structured_data (text : List Char) : Except PyErr (List Receipt) :=
  goChunks (splitChunks text)

/-- The record a chunk contributes, when it neither raises nor is
rejected. -/
def okRecord (c : List Char) : Option Receipt :=
  match processChunk c with
  | .ok (some r) => some r
  | _ => none

/-! ## Spec-side definitions

Definitions in this section are written from the specification's / the
claims' wording, to be compared against the code-derived definitions
above. -/

/-- Split a text into its lines (separated by newlines). -/
def linesAux (s : List Char) (acc : List Char) : List (List Char) :=
  match s with
  | [] => [acc.reverse]
  | c :: r => if c = '\n' then acc.reverse :: linesAux r [] else linesAux r (c :: acc)

def linesOf (s : List Char) : List (List Char) := linesAux s []

/-- Modelled from the spec: a separator line is "a line consisting solely
of 3+ repeated `-` characters, or solely of 3+ repeated `=` characters"
on its own line. -/
def isSepLine (l : List Char) : Bool :=
  (3 ≤ l.length) && (l.all (fun c => c == '-') || l.all (fun c => c == '='))

def joinLines (ls : List (List Char)) : List Char :=
  match ls with
  | [] => []
  | [l] => l
  | l :: rest => l ++ '\n' :: joinLines rest

/-- Group the runs of lines between separator lines back into chunks. -/
def groupLines (ls : List (List Char)) (cur : List (List Char)) : List (List Char) :=
  match ls with
  | [] => [joinLines cur.reverse]
  | l :: rest =>
    if isSepLine l then joinLines cur.reverse :: groupLines rest []
    else groupLines rest (l :: cur)

/-- Modelled from the claim's wording for C5: split the text exactly at
every separator line and keep the non-blank chunks in order. -/
def lineBasedSegments (text : List Char) : List (List Char) :=
  (groupLines (linesOf text) []).filter (fun c => !(strip c).isEmpty)

/-- A chunk's vendor phase resolved a value without raising. -/
def vendorOk (c : List Char) : Bool :=
  match vendorField c with
  | .ok (some _) => true
  | _ => false

/-- A chunk's amount phase resolved a value without raising. -/
def amountOk (c : List Char) : Bool :=
  match amountFieldE c with
  | .ok (some _) => true
  | _ => false

/-- All three required fields of a chunk resolve (vendor found without
raising, a date pattern matched, an amount pattern matched and parsed). -/
def resolves (c : List Char) : Bool :=
  vendorOk c && (dateField c).isSome && amountOk c

/-- The language of the amount capture group `[\d,]+\.\d{2}`: a
non-empty run of digits and commas, a dot, exactly two digits. -/
def amountShape (s : List Char) : Bool :=
  let run := s.takeWhile isDigitOrComma
  !run.isEmpty &&
    (match s.dropWhile isDigitOrComma with
     | [c, a, b] => c = '.' ∧ a.isDigit ∧ b.isDigit
     | _ => false)

/-- Modelled from the claim's wording for C7: the symbol of the first
symbol-followed-by-amount occurrence decides the code via
`$`→USD, `€`→EUR, `£`→GBP, `¥`→JPY, `₹`/`Rs`→INR. -/
def symbolCode (sym : List Char) : List Char :=
  if sym = ['$'] then "USD".toList
  else if sym = ['€'] then "EUR".toList
  else if sym = ['£'] then "GBP".toList
  else if sym = ['¥'] then "JPY".toList
  else "INR".toList

/-- Modelled from the claim's wording for C7: first occurrence decides;
no occurrence defaults to INR. -/
def currencySpec (chunk : List Char) : List Char :=
  match scanP currencyAt chunk with
  | none => "INR".toList
  | some m => symbolCode m.sym

/-! ## Concrete inputs used by the claims -/

def exC1 : List Char := "Hello\nDate: 01/02/2024\nTotal: 450.00\n".toList
def exC2 : List Char := "SHOP\nDate: 99/99/2025\nTotal: 450.00\n".toList
def exC3 : List Char :=
  "SHOP\nDate: 01/02/2024\nTotal: 450.00\n---\nHello\nDate: 02/02/2024\n".toList
def exC3first : List Char := "SHOP\nDate: 01/02/2024\nTotal: 450.00\n".toList
def exC5 : List Char := "a\n---\n---\nb".toList
def tC6a : List Char := "SHOP\nDate: 01/02/2024\nTotal: ₹1,234.56\n".toList
def tC6b : List Char := "SHOP\nDate: 01/02/2024\nGrand Total: 999.00\n".toList
def tC6c : List Char :=
  "SHOP\nDate: 01/02/2024\nTotal: 450.00\n---\nSHOPB\nDate: 02/02/2024\nTotal: abc\n".toList
def tC7usd : List Char := "SHOP\nDate: 01/02/2024\nTotal: 45.00\nPaid $45.00\n".toList
def tC7inr : List Char := "SHOP\nDate: 03/04/2024\nTotal: 12.00\n".toList
def tC10 : List Char := " \nDate: 01/02/2024\nTotal: 450.00\n".toList
def tC4w : List Char := "MILK BAR\nDate: 05/06/2024\nTotal: 20.00\n".toList
def tC8w : List Char := "CAFE\nDate: 06/07/2024\nTotal: 30.00\n".toList

/-- The record `extract_structured_data tC7usd` produces. -/
def recC7usd : Receipt :=
  { vendor := "SHOP".toList
    transaction_date := some ⟨2024, 2, 1⟩
    total_amount := 45
    category := "Uncategorized".toList
    currency := "USD".toList
    raw_text := tC7usd }

/-! # Helper lemmas -/

/-- A successfully produced record carries its chunk as `raw_text` and
the chunk's detected currency. -/
theorem processChunk_ok_some {c : List Char} {r : Receipt}
    (h : processChunk c = .ok (some r)) :
    r.raw_text = c ∧ r.currency = currency_of c := by
  unfold processChunk at h
  split at h
  · exact absurd h (by simp)
  · split at h
    · exact absurd h (by simp)
    · split at h
      · simp only [Except.ok.injEq, Option.some.injEq] at h
        subst h
        exact ⟨rfl, rfl⟩
      · exact absurd h (by simp)

theorem okRecord_some {c : List Char} {r : Receipt} (h : okRecord c = some r) :
    processChunk c = .ok (some r) := by
  unfold okRecord at h
  split at h
  · simp only [Option.some.injEq] at h; subst h; assumption
  · exact absurd h (by simp)

/-- The chunk loop, when it returns normally, returns exactly the
per-chunk contributions of the non-blank chunks, in order. -/
theorem goChunks_ok_eq :
    ∀ (cs : List (List Char)) {l : List Receipt}, goChunks cs = .ok l →
      l = (cs.filter (fun c => !(strip c).isEmpty)).filterMap okRecord := by
  intro cs
  induction cs with
  | nil =>
    intro l h
    simp only [goChunks, Except.ok.injEq] at h
    simp [← h]
  | cons c cs ih =>
    intro l h
    rw [goChunks] at h
    rw [List.filter_cons]
    cases hb : (strip c).isEmpty with
    | true =>
      rw [hb] at h
      simp only [hb, Bool.not_true, Bool.false_eq_true, if_false]
      exact ih (by simpa using h)
    | false =>
      rw [hb] at h
      simp only [Bool.false_eq_true, if_false] at h
      simp only [hb, Bool.not_false, if_true, List.filterMap_cons]
      cases hp : processChunk c with
      | error e => rw [hp] at h; exact absurd h (by simp)
      | ok ro =>
        rw [hp] at h
        cases ro with
        | none =>
          simp only [okRecord, hp]
          exact ih h
        | some r =>
          cases hg : goChunks cs with
          | error e => rw [hg] at h; exact absurd h (by simp)
          | ok l' =>
            rw [hg] at h
            simp only [Except.ok.injEq] at h
            simp only [okRecord, hp, ← h, ih hg]

/-- Mapping a left inverse over a `filterMap` lands in a sublist of the
original list. -/
theorem map_filterMap_sublist {α β : Type} (f : α → Option β) (g : β → α)
    (hfg : ∀ a b, f a = some b → g b = a) :
    ∀ l : List α, ((l.filterMap f).map g).Sublist l := by
  intro l
  induction l with
  | nil => simp
  | cons a l ih =>
    rw [List.filterMap_cons]
    cases hf : f a with
    | none => exact ih.cons a
    | some b =>
      rw [List.map_cons, hfg a b hf]
      exact ih.cons₂ a

/-- A chunk whose three required fields resolve produces a record whose
`raw_text` is the chunk. -/
theorem resolves_processChunk {c : List Char} (h : resolves c = true) :
    ∃ r : Receipt, processChunk c = .ok (some r) ∧ r.raw_text = c := by
  unfold resolves vendorOk amountOk at h
  cases hv : vendorField c with
  | error e => rw [hv] at h; simp at h
  | ok vOpt =>
    rw [hv] at h
    cases vOpt with
    | none => simp at h
    | some v =>
      cases hd : dateField c with
      | none => rw [hd] at h; simp at h
      | some d =>
        cases ha : amountFieldE c with
        | error e => rw [ha] at h; simp at h
        | ok aOpt =>
          rw [ha] at h
          cases aOpt with
          | none => simp at h
          | some a =>
            refine ⟨⟨v, d, a, categoryOf v, currency_of c, c⟩, ?_, rfl⟩
            unfold processChunk
            rw [hv, hd, ha]

/-- When every non-blank chunk resolves, the loop succeeds and returns
one record per non-blank chunk, carrying the chunks in order. -/
theorem goChunks_ok_of_resolves :
    ∀ (cs : List (List Char)),
      (∀ c ∈ cs.filter (fun c => !(strip c).isEmpty), resolves c = true) →
      ∃ l, goChunks cs = .ok l ∧
        l.map Receipt.raw_text = cs.filter (fun c => !(strip c).isEmpty) := by
  intro cs
  induction cs with
  | nil => exact fun _ => ⟨[], rfl, rfl⟩
  | cons c cs ih =>
    intro h
    rw [List.filter_cons] at h ⊢
    cases hb : (strip c).isEmpty with
    | true =>
      simp only [hb, Bool.not_true, Bool.false_eq_true, if_false] at h ⊢
      obtain ⟨l, hl, hm⟩ := ih h
      exact ⟨l, by rw [goChunks, hb]; simpa using hl, hm⟩
    | false =>
      simp only [hb, Bool.not_false, if_true] at h ⊢
      obtain ⟨r, hr, hraw⟩ := resolves_processChunk (h c (by simp))
      obtain ⟨l, hl, hm⟩ := ih (fun x hx => h x (List.mem_cons_of_mem c hx))
      refine ⟨r :: l, ?_, ?_⟩
      · rw [goChunks, hb]
        simp only [Bool.false_eq_true, if_false, hr, hl]
      · rw [List.map_cons, hraw, hm]

/-- A separator match strictly shrinks the remaining text. -/
theorem findSep_shrink : ∀ {t p s : List Char}, findSep t = some (p, s) →
    s.length < t.length := by
  intro t
  induction t with
  | nil => intro p s h; simp [findSep] at h
  | cons c r ih =>
    intro p s h
    rw [findSep] at h
    by_cases hc : c = '\n'
    · rw [if_pos hc] at h
      cases hn : sepAfterNL r with
      | some n =>
        rw [hn] at h
        simp only [Option.some.injEq, Prod.mk.injEq] at h
        obtain ⟨-, hs⟩ := h
        subst hs
        simp only [List.length_drop, List.length_cons]
        omega
      | none =>
        rw [hn] at h
        simp only [Option.map_eq_some'] at h
        obtain ⟨⟨p', s'⟩, hf, heq⟩ := h
        simp only [Prod.mk.injEq] at heq
        obtain ⟨-, hs⟩ := heq
        subst hs
        exact Nat.lt_trans (ih hf) (by simp)
    · rw [if_neg hc] at h
      simp only [Option.map_eq_some'] at h
      obtain ⟨⟨p', s'⟩, hf, heq⟩ := h
      simp only [Prod.mk.injEq] at heq
      obtain ⟨-, hs⟩ := heq
      subst hs
      exact Nat.lt_trans (ih hf) (by simp)

/-- Any fuel at least the text length computes the same chunk list. -/
theorem splitChunksFuel_irrel : ∀ (f₁ : Nat) {f₂ : Nat} {t : List Char},
    t.length ≤ f₁ → t.length ≤ f₂ → splitChunksFuel f₁ t = splitChunksFuel f₂ t := by
  intro f₁
  induction f₁ with
  | zero =>
    intro f₂ t h1 _
    have ht : t = [] := List.eq_nil_of_length_eq_zero (Nat.le_zero.mp h1)
    subst ht
    cases f₂ <;> simp [splitChunksFuel, findSep]
  | succ f ih =>
    intro f₂ t h1 h2
    cases f₂ with
    | zero =>
      have ht : t = [] := List.eq_nil_of_length_eq_zero (Nat.le_zero.mp h2)
      subst ht
      simp [splitChunksFuel, findSep]
    | succ g =>
      rw [splitChunksFuel, splitChunksFuel]
      cases hf : findSep t with
      | none => rfl
      | some pq =>
        have hs : pq.2.length < t.length :=
          findSep_shrink (t := t) (p := pq.1) (s := pq.2) (by rw [hf])
        show pq.1 :: splitChunksFuel f pq.2 = pq.1 :: splitChunksFuel g pq.2
        rw [ih (Nat.le_of_lt_succ (Nat.lt_of_lt_of_le hs h1))
            (Nat.le_of_lt_succ (Nat.lt_of_lt_of_le hs h2))]

theorem splitChunks_of_findSep_none {t : List Char} (h : findSep t = none) :
    splitChunks t = [t] := by
  cases t with
  | nil => rfl
  | cons c r =>
    show splitChunksFuel (r.length + 1) (c :: r) = [c :: r]
    rw [splitChunksFuel, h]

theorem splitChunks_of_findSep_some {t p s : List Char}
    (h : findSep t = some (p, s)) : splitChunks t = p :: splitChunks s := by
  cases t with
  | nil => simp [findSep] at h
  | cons c r =>
    show splitChunksFuel (r.length + 1) (c :: r) = _
    rw [splitChunksFuel, h]
    have hs : s.length < r.length + 1 :=
      findSep_shrink (t := c :: r) (p := p) (s := s) h
    exact congrArg (p :: ·)
      (splitChunksFuel_irrel r.length (Nat.le_of_lt_succ hs) (Nat.le_refl _))

/-! # Claim theorems -/

/-- C1.  The claim says `extract_structured_data` never raises for a
non-null input.  It is refuted by the code: the second vendor fallback
pattern `^(?:[A-Z\s]+)\n` has no capture group, so when it is the first
vendor pattern to match (first line made of letters/whitespace but not
matching the all-caps pre-pass, and no `from:`/`billed by:`/`sold by:`/
`store:` label anywhere), `match.group(1)` raises `IndexError`, which
propagates to the caller.  Evaluated at the failing input
`"Hello\nDate: 01/02/2024\nTotal: 450.00\n"`. -/
theorem c1_extract_raises_IndexError :
    extract_structured_data exC1 = .error PyErr.indexError := by decide

/-- C2.  The claim says a segment whose matched date text parses under
none of the four formats yields no record.  The code instead emits a
record whose date is `None`: `clean_date` returns `None`, the dict key
`date` is still set, and the validation `all(k in extracted ...)` checks
key presence only.  Evaluated at `"SHOP\nDate: 99/99/2025\nTotal:
450.00\n"`: one record is returned, with a null date. -/
theorem c2_null_date_record_emitted :
    extract_structured_data exC2 =
      .ok [{ vendor := "SHOP".toList, transaction_date := none,
             total_amount := 450, category := "Uncategorized".toList,
             currency := "INR".toList, raw_text := exC2 }] := by decide

/-- C3.  The claim says a segment missing a required field yields zero
records and does not affect sibling segments.  Refuted by the same
missing-capture-group bug as C1: in the two-segment input `exC3` the
second segment lacks an amount, but processing it raises `IndexError`,
so the whole call fails and even the first (fully valid) segment's
record — which the same first segment alone does produce — is lost. -/
theorem c3_bad_segment_kills_siblings :
    extract_structured_data exC3 = .error PyErr.indexError ∧
    (extract_structured_data exC3first).map List.length = .ok 1 :=
  ⟨by decide, by decide⟩

/-- C6.  Amount recognition: `Total: ₹1,234.56` yields 1234.56 and
`Grand Total: 999.00` yields 999.00 (commas and `₹` stripped before
decimal parsing), and a malformed `Total: abc` rejects only its own
segment — the two-segment input `tC6c` returns normally with exactly the
first segment's record. -/
theorem c6_amount_parsing :
    (extract_structured_data tC6a).map (fun l => l.map Receipt.total_amount) =
      .ok [mkRat 123456 100] ∧
    (extract_structured_data tC6b).map (fun l => l.map Receipt.total_amount) =
      .ok [mkRat 99900 100] ∧
    (extract_structured_data tC6c).map (fun l => l.map Receipt.raw_text) =
      .ok ["SHOP\nDate: 01/02/2024\nTotal: 450.00".toList] :=
  ⟨by decide, by decide, by decide⟩

/-- C8.  Determinism: the engine is a pure function of its input text
(all pattern tables are fixed constants), so two calls on equal texts
return equal record lists. -/
theorem c8_extract_deterministic (t₁ t₂ : List Char) (h : t₁ = t₂) :
    extract_structured_data t₁ = extract_structured_data t₂ := by rw [h]

theorem c8_extract_deterministic_witness :
    tC8w = tC8w ∧ extract_structured_data tC8w = extract_structured_data tC8w :=
  ⟨rfl, c8_extract_deterministic tC8w tC8w rfl⟩

theorem dropWhile_of_all_false {p : Char → Bool} :
    ∀ {l : List Char}, (∀ x ∈ l, p x = false) → l.dropWhile p = l := by
  intro l h
  cases l with
  | nil => rfl
  | cons c r => rw [List.dropWhile_cons, h c (by simp)]; simp

theorem strip_no_space {l : List Char} (h : ∀ x ∈ l, isPySpace x = false) :
    strip l = l := by
  unfold strip
  rw [dropWhile_of_all_false h,
    dropWhile_of_all_false (fun x hx => h x (List.mem_reverse.mp hx)),
    List.reverse_reverse]

theorem takeWhile_all_append {p : Char → Bool} {l1 l2 : List Char}
    (h : ∀ x ∈ l1, p x = true) :
    (l1 ++ l2).takeWhile p = l1 ++ l2.takeWhile p := by
  rw [List.takeWhile_append]
  rw [List.takeWhile_eq_self_iff.mpr h]
  simp

theorem dropWhile_all_append {p : Char → Bool} {l1 l2 : List Char}
    (h : ∀ x ∈ l1, p x = true) :
    (l1 ++ l2).dropWhile p = l2.dropWhile p := by
  rw [List.dropWhile_append]
  have : l1.dropWhile p = [] := by
    rw [List.dropWhile_eq_nil_iff]
    exact h
  rw [this]
  simp

theorem isPySpace_false_of_isDigit {x : Char} (h : x.isDigit = true) :
    isPySpace x = false := by
  cases hq : isPySpace x with
  | false => rfl
  | true =>
    exfalso
    simp only [isPySpace, Bool.or_eq_true, beq_iff_eq] at hq
    rcases hq with ((((h1 | h1) | h1) | h1) | h1) | h1 <;> subst h1 <;>
      exact absurd h (by decide)

theorem ne_of_isDigit {x c : Char} (h : x.isDigit = true) (hc : c.isDigit = false) :
    x ≠ c := fun he => by rw [he] at h; rw [h] at hc; exact absurd hc (by simp)

/-- When the text has no sign prefix, `float` parses the unsigned
body. -/
theorem pyFloat_not_signed : ∀ {s : List Char},
    (∀ c, s.head? = some c → (c ≠ '+' ∧ c ≠ '-')) → pyFloat s = pyFloatBody 1 s := by
  intro s h
  cases s with
  | nil => rfl
  | cons c t =>
    obtain ⟨h1, h2⟩ := h c rfl
    rw [pyFloat, if_neg h1, if_neg h2]

/-- `float` accepts `digits . digit digit` (integer part possibly
empty). -/
theorem pyFloatBody_digits_dot (ds : List Char) (a b : Char)
    (hds : ∀ x ∈ ds, x.isDigit = true) (ha : a.isDigit = true) (hb : b.isDigit = true) :
    pyFloatBody 1 (ds ++ '.' :: a :: b :: []) = some (ratOfParts 1 ds [a, b] 0) := by
  have hip : (ds ++ '.' :: a :: b :: []).takeWhile Char.isDigit = ds := by
    rw [takeWhile_all_append hds, List.takeWhile_cons]
    simp
  have hr : (ds ++ '.' :: a :: b :: []).dropWhile Char.isDigit = '.' :: a :: b :: [] := by
    rw [dropWhile_all_append hds, List.dropWhile_cons]
    simp
  have hfp : ([a, b] : List Char).takeWhile Char.isDigit = [a, b] :=
    List.takeWhile_eq_self_iff.mpr (by simp [ha, hb])
  have hr2 : ([a, b] : List Char).dropWhile Char.isDigit = [] :=
    List.dropWhile_eq_nil_iff.mpr (by simp [ha, hb])
  simp only [pyFloatBody]
  rw [hr, hip]
  simp only [List.drop_succ_cons, List.drop_zero]
  rw [hfp, hr2]
  rw [if_pos (show (('.' :: a :: b :: []).head? = some '.') from rfl)]
  rw [if_neg (by simp)]
  rfl

/-- C9.  `clean_amount` succeeds on every string the amount capture
group `[\d,]+\.\d{2}` can produce: removing commas (the rupee sign
cannot occur in the capture) leaves `digits* . digit digit`, which
`float` accepts, so the unguarded `clean_amount` call in the amount
phase never raises. -/
theorem c9_clean_amount_total (s : List Char) (h : amountShape s = true) :
    (clean_amount s).isSome = true := by
  simp only [amountShape, Bool.and_eq_true, Bool.not_eq_true'] at h
  obtain ⟨h1, h2⟩ := h
  rcases hm : s.dropWhile isDigitOrComma with - | ⟨c, rest⟩
  · rw [hm] at h2; exact absurd h2 (by simp)
  rcases rest with - | ⟨a, rest2⟩
  · rw [hm] at h2; exact absurd h2 (by simp)
  rcases rest2 with - | ⟨b, rest3⟩
  · rw [hm] at h2; exact absurd h2 (by simp)
  rcases rest3 with - | ⟨d, t⟩
  case cons.cons.cons.cons =>
    rw [hm] at h2; exact absurd h2 (by simp)
  rw [hm] at h2
  simp only [decide_eq_true_eq] at h2
  obtain ⟨hc, ha, hb⟩ := h2
  subst hc
  have hsplit : s = s.takeWhile isDigitOrComma ++ '.' :: a :: b :: [] := by
    conv_lhs => rw [← List.takeWhile_append_dropWhile isDigitOrComma s]
    rw [hm]
  have hrunAll : ∀ x ∈ s.takeWhile isDigitOrComma, isDigitOrComma x = true :=
    fun x hx => List.mem_takeWhile_imp hx
  rw [clean_amount, hsplit]
  rw [List.filter_append]
  have hdotpart : (('.' :: a :: b :: []).filter (fun c => c != ',')) =
      '.' :: a :: b :: [] := by
    apply List.filter_eq_self.mpr
    intro x hx
    simp only [List.mem_cons, List.not_mem_nil, or_false] at hx
    rcases hx with h1 | h1 | h1 <;> rw [h1] <;> simp [bne_iff_ne]
    · exact ne_of_isDigit ha (by decide)
    · exact ne_of_isDigit hb (by decide)
  rw [hdotpart]
  have hdsAll : ∀ x ∈ (s.takeWhile isDigitOrComma).filter (fun c => c != ','),
      x.isDigit = true := by
    intro x hx
    obtain ⟨hx1, hx2⟩ := List.mem_filter.mp hx
    have := hrunAll x hx1
    simp only [isDigitOrComma, Bool.or_eq_true, beq_iff_eq] at this
    rcases this with h1 | h1
    · exact h1
    · rw [h1] at hx2; exact absurd hx2 (by decide)
  set ds := (s.takeWhile isDigitOrComma).filter (fun c => c != ',') with hds
  have hall : ∀ x ∈ ds ++ '.' :: a :: b :: [], x.isDigit = true ∨ x = '.' := by
    intro x hx
    rcases List.mem_append.mp hx with h1 | h1
    · exact Or.inl (hdsAll x h1)
    · simp only [List.mem_cons, List.not_mem_nil, or_false] at h1
      rcases h1 with h1 | h1 | h1
      · exact Or.inr h1
      · exact Or.inl (h1 ▸ ha)
      · exact Or.inl (h1 ▸ hb)
  have hfilter2 : (ds ++ '.' :: a :: b :: []).filter (fun c => c != '₹') =
      ds ++ '.' :: a :: b :: [] := by
    apply List.filter_eq_self.mpr
    intro x hx
    rcases hall x hx with h1 | h1
    · simp [bne_iff_ne]; exact ne_of_isDigit h1 (by decide)
    · rw [h1]; decide
  rw [hfilter2]
  have hstrip : strip (ds ++ '.' :: a :: b :: []) = ds ++ '.' :: a :: b :: [] := by
    apply strip_no_space
    intro x hx
    rcases hall x hx with h1 | h1
    · exact isPySpace_false_of_isDigit h1
    · rw [h1]; decide
  rw [hstrip]
  rw [pyFloat_not_signed]
  · rw [pyFloatBody_digits_dot ds a b hdsAll ha hb]
    rfl
  · intro c hc
    have hcmem : c ∈ ds ++ '.' :: a :: b :: [] := by
      rcases hl : ds ++ '.' :: a :: b :: [] with - | ⟨y, t⟩
      · rw [hl] at hc; simp at hc
      · rw [hl] at hc
        have hy : y = c := by simpa using hc
        rw [← hy]
        exact List.mem_cons_self y t
    rcases hall c hcmem with hd | hd
    · exact ⟨ne_of_isDigit hd (by decide), ne_of_isDigit hd (by decide)⟩
    · rw [hd]
      exact ⟨by decide, by decide⟩

theorem c9_clean_amount_total_witness :
    amountShape ("1,234.56".toList) = true ∧
    (clean_amount ("1,234.56".toList)).isSome = true :=
  ⟨by decide, c9_clean_amount_total ("1,234.56".toList) (by decide)⟩

/-- C4.  When every segment (non-blank chunk) resolves vendor, date and
amount, the engine returns normally with exactly one record per segment,
whose `raw_text` fields are the segments in order; and in general, every
normal return has at most one record per segment, in segment order (its
`raw_text` trace is a sublist of the segment list). -/
theorem c4_count_and_order (text : List Char)
    (h : ∀ c ∈ segments text, resolves c = true) :
    (∃ l, extract_structured_data text = .ok l ∧
       l.map Receipt.raw_text = segments text ∧
       l.length = (segments text).length) ∧
    (∀ t l', extract_structured_data t = .ok l' →
       (l'.map Receipt.raw_text).Sublist (segments t) ∧
       l'.length ≤ (segments t).length) := by
  constructor
  · obtain ⟨l, hl, hm⟩ := goChunks_ok_of_resolves (splitChunks text) h
    refine ⟨l, hl, hm, ?_⟩
    have h2 : (l.map Receipt.raw_text).length = (segments text).length := by
      rw [hm]; rfl
    simpa using h2
  · intro t l' h'
    have he := goChunks_ok_eq (splitChunks t) h'
    have hsub : (l'.map Receipt.raw_text).Sublist (segments t) := by
      rw [he]
      exact map_filterMap_sublist okRecord Receipt.raw_text
        (fun a b hb => (processChunk_ok_some (okRecord_some hb)).1) _
    exact ⟨hsub, by simpa using hsub.length_le⟩

theorem c4_count_and_order_witness :
    ∃ l, extract_structured_data tC4w = .ok l ∧
      l.map Receipt.raw_text = segments tC4w ∧
      l.length = (segments tC4w).length :=
  (c4_count_and_order tC4w (by decide)).1

/-- C5 counterexample.  The claim says the text is split exactly at every
separator line.  On `"a\n---\n---\nb"` the first match consumes the
newline that precedes the second separator line, so the second one is not
recognized: the code yields segments `["a", "---\nb"]`, not `["a", "b"]`
as splitting at every separator line would. -/
theorem c5_not_line_based : segments exC5 ≠ lineBasedSegments exC5 := by decide

/-- C5, amended.  Segmentation repeatedly consumes the LEFTMOST
occurrence of newline + 3-plus dashes (or equals) + newline — so a
separator line immediately following a consumed one, or one at the very
start or end of the text without surrounding newlines, is not a split
point; when no such occurrence exists the whole text is the single
chunk; and every segment kept is non-blank. -/
theorem c5_segmentation_scan (text : List Char) :
    (findSep text = none → splitChunks text = [text]) ∧
    (∀ p s, findSep text = some (p, s) → splitChunks text = p :: splitChunks s) ∧
    (∀ c ∈ segments text, (strip c).isEmpty = false) := by
  refine ⟨splitChunks_of_findSep_none, fun p s h => splitChunks_of_findSep_some h, ?_⟩
  intro c hc
  have := (List.mem_filter.mp hc).2
  simpa using this

theorem c5_segmentation_scan_witness :
    splitChunks exC5 = "a".toList :: splitChunks ("---\nb".toList) :=
  (c5_segmentation_scan exC5).2.1 ("a".toList) ("---\nb".toList) (by decide)

/-- A successful scan comes from a successful positional match. -/
theorem scanP_some {α : Type} {f : List Char → Option α} :
    ∀ {s : List Char} {v : α}, scanP f s = some v → ∃ t, f t = some v := by
  intro s
  induction s with
  | nil => intro v h; exact ⟨[], h⟩
  | cons c r ih =>
    intro v h
    rw [scanP] at h
    cases hf : f (c :: r) with
    | some w =>
      rw [hf] at h
      exact ⟨c :: r, by rw [hf]; exact h⟩
    | none => rw [hf] at h; exact ih h

/-- Structure of a currency tail match: the symbol text is carried
through, the gap is whitespace, the numeric text is digits/commas and at
most one dot. -/
theorem curTail_parts {sym r : List Char} {m : CurMatch}
    (h : curTail sym r = some m) :
    m.sym = sym ∧ (∀ x ∈ m.ws, isPySpace x = true) ∧
    (∀ x ∈ m.num, isDigitOrComma x = true ∨ x = '.') := by
  have hw : ∀ x ∈ r.takeWhile isPySpace, isPySpace x = true :=
    fun x hx => List.mem_takeWhile_imp hx
  have hrun : ∀ x ∈ (r.drop (r.takeWhile isPySpace).length).takeWhile isDigitOrComma,
      isDigitOrComma x = true := fun x hx => List.mem_takeWhile_imp hx
  simp only [curTail] at h
  split at h
  · exact absurd h (by simp)
  · split at h
    · split at h
      · rw [Option.some.injEq] at h
        subst h
        rename_i hcond
        refine ⟨rfl, hw, ?_⟩
        intro x hx
        rcases List.mem_append.mp hx with h1 | h1
        · exact Or.inl (hrun x h1)
        · simp only [List.mem_cons, List.not_mem_nil, or_false] at h1
          rcases h1 with h1 | h1 | h1
          · exact Or.inr (h1.trans hcond.1)
          · exact Or.inl (by simp [isDigitOrComma, h1 ▸ hcond.2.1])
          · exact Or.inl (by simp [isDigitOrComma, h1 ▸ hcond.2.2])
      · rw [Option.some.injEq] at h
        subst h
        exact ⟨rfl, hw, fun x hx => Or.inl (hrun x hx)⟩
    · rw [Option.some.injEq] at h
      subst h
      exact ⟨rfl, hw, fun x hx => Or.inl (hrun x hx)⟩

/-- Structure of a currency symbol match. -/
theorem currencyAt_parts {s : List Char} {m : CurMatch}
    (h : currencyAt s = some m) :
    (m.sym = ['$'] ∨ m.sym = ['€'] ∨ m.sym = ['£'] ∨ m.sym = ['¥'] ∨
     m.sym = ['₹'] ∨ m.sym = ['R', 's'] ∨ m.sym = ['R', 's', '.']) ∧
    (∀ x ∈ m.ws, isPySpace x = true) ∧
    (∀ x ∈ m.num, isDigitOrComma x = true ∨ x = '.') := by
  cases s with
  | nil => exact absurd h (by simp [currencyAt])
  | cons c r =>
    simp only [currencyAt.eq_def] at h
    by_cases h5 : c = '$' ∨ c = '€' ∨ c = '£' ∨ c = '¥' ∨ c = '₹'
    · rw [if_pos h5] at h
      obtain ⟨hsym, hws, hnum⟩ := curTail_parts h
      refine ⟨?_, hws, hnum⟩
      rcases h5 with h5 | h5 | h5 | h5 | h5 <;> rw [hsym, h5] <;> simp
    · rw [if_neg h5] at h
      by_cases hR : c = 'R'
      · rw [if_pos hR] at h
        cases r with
        | nil => exact absurd h (by simp)
        | cons c2 r2 =>
          dsimp only at h
          by_cases hs2 : c2 = 's'
          · rw [if_pos hs2] at h
            cases r2 with
            | nil =>
              obtain ⟨hsym, hws, hnum⟩ := curTail_parts h
              exact ⟨by rw [hsym]; simp, hws, hnum⟩
            | cons c3 r3 =>
              dsimp only at h
              by_cases hdot : c3 = '.'
              · rw [if_pos hdot] at h
                cases hct : curTail ['R', 's', '.'] r3 with
                | some m' =>
                  rw [hct] at h
                  have hm : m' = m := by simpa using h
                  obtain ⟨hsym, hws, hnum⟩ := curTail_parts hct
                  subst hm
                  exact ⟨by rw [hsym]; simp, hws, hnum⟩
                | none =>
                  rw [hct] at h
                  obtain ⟨hsym, hws, hnum⟩ := curTail_parts h
                  exact ⟨by rw [hsym]; simp, hws, hnum⟩
              · rw [if_neg hdot] at h
                obtain ⟨hsym, hws, hnum⟩ := curTail_parts h
                exact ⟨by rw [hsym]; simp, hws, hnum⟩
          · rw [if_neg hs2] at h; exact absurd h (by simp)
      · rw [if_neg hR] at h; exact absurd h (by simp)

theorem contains_iff {l : List Char} {a : Char} : l.contains a = true ↔ a ∈ l := by
  simp [List.contains, List.elem_iff]

theorem contains_false {l : List Char} {a : Char} (h : a ∉ l) :
    l.contains a = false := by
  cases hq : l.contains a with
  | false => rfl
  | true => exact absurd (contains_iff.mp hq) h

/-- The code's ordered substring checks on the matched text `group(0)`
coincide with mapping the matched symbol through the claimed table. -/
theorem currency_of_eq_spec (chunk : List Char) :
    currency_of chunk = currencySpec chunk := by
  simp only [currency_of, currencySpec]
  cases hm : scanP currencyAt chunk with
  | none => rfl
  | some m =>
    dsimp only
    obtain ⟨t, ht⟩ := scanP_some hm
    obtain ⟨hsym, hws, hnum⟩ := currencyAt_parts ht
    have hnotin : ∀ x : Char, isPySpace x = false → isDigitOrComma x = false →
        x ≠ '.' → x ∉ m.ws ∧ x ∉ m.num := by
      intro x hx1 hx2 hx3
      refine ⟨fun hx => ?_, fun hx => ?_⟩
      · rw [hws x hx] at hx1; exact absurd hx1 (by simp)
      · rcases hnum x hx with h | h
        · rw [h] at hx2; exact absurd hx2 (by simp)
        · exact hx3 h
    have hnm : ∀ (x : Char) (pre : List Char), x ∉ m.ws → x ∉ m.num → x ∉ pre →
        (pre ++ m.ws ++ m.num).contains x = false := by
      intro x pre h1 h2 h3
      apply contains_false
      simp only [List.mem_append]
      rintro ((hx | hx) | hx)
      · exact h3 hx
      · exact h1 hx
      · exact h2 hx
    have hd := hnotin '$' (by decide) (by decide) (by decide)
    have he := hnotin '€' (by decide) (by decide) (by decide)
    have hp := hnotin '£' (by decide) (by decide) (by decide)
    have hy := hnotin '¥' (by decide) (by decide) (by decide)
    rcases hsym with h | h | h | h | h | h | h
    · rw [h, if_pos (contains_iff.mpr (by simp))]
      decide
    · rw [h, hnm '$' ['€'] hd.1 hd.2 (by decide)]
      rw [if_neg (by simp), if_pos (contains_iff.mpr (by simp))]
      decide
    · rw [h, hnm '$' ['£'] hd.1 hd.2 (by decide),
        hnm '€' ['£'] he.1 he.2 (by decide)]
      rw [if_neg (by simp), if_neg (by simp),
        if_pos (contains_iff.mpr (by simp))]
      decide
    · rw [h, hnm '$' ['¥'] hd.1 hd.2 (by decide),
        hnm '€' ['¥'] he.1 he.2 (by decide),
        hnm '£' ['¥'] hp.1 hp.2 (by decide)]
      rw [if_neg (by simp), if_neg (by simp), if_neg (by simp),
        if_pos (contains_iff.mpr (by simp))]
      decide
    · rw [h, hnm '$' ['₹'] hd.1 hd.2 (by decide),
        hnm '€' ['₹'] he.1 he.2 (by decide),
        hnm '£' ['₹'] hp.1 hp.2 (by decide),
        hnm '¥' ['₹'] hy.1 hy.2 (by decide)]
      rw [if_neg (by simp), if_neg (by simp), if_neg (by simp), if_neg (by simp),
        ite_self]
      decide
    · rw [h, hnm '$' ['R', 's'] hd.1 hd.2 (by decide),
        hnm '€' ['R', 's'] he.1 he.2 (by decide),
        hnm '£' ['R', 's'] hp.1 hp.2 (by decide),
        hnm '¥' ['R', 's'] hy.1 hy.2 (by decide)]
      rw [if_neg (by simp), if_neg (by simp), if_neg (by simp), if_neg (by simp),
        ite_self]
      decide
    · rw [h, hnm '$' ['R', 's', '.'] hd.1 hd.2 (by decide),
        hnm '€' ['R', 's', '.'] he.1 he.2 (by decide),
        hnm '£' ['R', 's', '.'] hp.1 hp.2 (by decide),
        hnm '¥' ['R', 's', '.'] hy.1 hy.2 (by decide)]
      rw [if_neg (by simp), if_neg (by simp), if_neg (by simp), if_neg (by simp),
        ite_self]
      decide

/-- C7.  Every emitted record's currency is determined by the first
symbol-followed-by-amount occurrence in its segment, mapped through
`$`→USD, `€`→EUR, `£`→GBP, `¥`→JPY, `₹`/`Rs`→INR, with default INR when
no occurrence exists; concretely, a segment containing `$45.00` yields
USD, and one with no currency symbol yields INR. -/
theorem c7_currency_inference :
    (∀ text l r, extract_structured_data text = .ok l → r ∈ l →
       r.currency = currencySpec r.raw_text) ∧
    extract_structured_data tC7usd = .ok [recC7usd] ∧
    recC7usd.currency = "USD".toList ∧
    (extract_structured_data tC7inr).map (fun l => l.map Receipt.currency) =
      .ok ["INR".toList] := by
  refine ⟨?_, by decide, by decide, by decide⟩
  intro text l r hok hmem
  have he := goChunks_ok_eq (splitChunks text) hok
  rw [he] at hmem
  obtain ⟨c, hc, hrec⟩ := List.mem_filterMap.mp hmem
  obtain ⟨hraw, hcur⟩ := processChunk_ok_some (okRecord_some hrec)
  rw [hcur, hraw, currency_of_eq_spec]

theorem c7_currency_inference_witness :
    recC7usd.currency = currencySpec recC7usd.raw_text :=
  c7_currency_inference.1 tC7usd [recC7usd] recC7usd (by decide) (by decide)

/-- The record produced for the C10 input, whose vendor is empty: the
all-caps pre-pass `^([A-Z\s&]+)$` matches the whitespace-only first line
(whitespace is inside the character class), and stripping it leaves the
empty string, which still passes the key-presence validation. -/
def recC10 : Receipt :=
  { vendor := []
    transaction_date := some ⟨2024, 2, 1⟩
    total_amount := 450
    category := "Uncategorized".toList
    currency := "INR".toList
    raw_text := tC10 }

/-- C10.  There is an input for which the engine emits a record whose
vendor is the empty string. -/
theorem c10_empty_vendor_possible :
    ∃ (text : List Char) (l : List Receipt) (r : Receipt),
      extract_structured_data text = .ok l ∧ r ∈ l ∧ r.vendor = [] :=
  ⟨tC10, [recC10], recC10, by decide, by decide, rfl⟩

end BillWise
